import Mathlib

/-!
Verification of the candidate-ranking core of the matchmaking service.

The Python source is shallowly embedded here:
* floating-point arithmetic is modelled over `ℚ`;
* Python `round(x, n)` (banker's rounding on binary floats) is modelled as
  round-half-up at `n` decimals over `ℚ` (the two agree away from exact ties,
  which the claims never touch);
* a Python `dict.get(key, default)` access is modelled by `Option.getD`;
* code that can raise (`ZeroDivisionError`, `IndexError`, `AssertionError`,
  pydantic validation) returns `Except`.
-/

namespace Matchmaking

/-- Python `round(x, 3)` modelled on `ℚ` (half-up; see header note on ties). -/
def round3 (q : ℚ) : ℚ := (⌊q * 1000 + 1/2⌋ : ℚ) / 1000

/-- Python `round(x, 2)` modelled on `ℚ` (half-up; see header note on ties). -/
def round2 (q : ℚ) : ℚ := (⌊q * 100 + 1/2⌋ : ℚ) / 100

/-- Python truthiness of `s.strip()`: `True` exactly when `s` is empty or
whitespace-only (pydantic's `min_length=1` also rejects `""`, same outcome). -/
def pyBlank (s : String) : Bool := s.toList.all Char.isWhitespace

/-- Python truthiness of an optional string (absent key or `None` ↦ `none`;
the empty string is also falsy). -/
def truthyStr (o : Option String) : Bool := !(o.getD "").isEmpty

/-- Python `str.lower()`, character by character (the position enum values it
is applied to are plain ASCII). -/
def strLower (s : String) : String := ⟨s.data.map Char.toLower⟩

/-! ## `src/utils/time_utils.py` -/

/-- Decimal value of an ASCII digit character. -/
def charDigit (c : Char) : ℕ := c.toNat - 48

/-- Decimal number denoted by a digit string (`int(...)` on the `strptime`
field). -/
def digitsToNat (l : List Char) : ℕ := l.foldl (fun a c => a * 10 + charDigit c) 0

/-- Model of `parse_time`: `datetime.strptime(time_str, "%H:%M")`, modelled as minutes
since midnight, splitting the character list at the colon.  (`strptime`
rejects malformed strings; the claims only ever evaluate this on valid
`"HH:MM"` literals, so the malformed case is mapped to `0` rather than to an
exception.) -/
def parse_time (s : String) : ℕ :=
  match s.data.splitOn ':' with
  | [h, m] => digitsToNat h * 60 + digitsToNat m
  | _ => 0

/-- Two-digit zero padding, as in `strftime`. -/
def pad2 (n : ℕ) : String := if n < 10 then "0" ++ toString n else toString n

/-- Rendering `dt.strftime("%H:%M")` for a `datetime` holding `n` minutes since midnight. -/
def fmtHHMM (n : ℕ) : String := pad2 (n / 60 % 24) ++ ":" ++ pad2 (n % 60)

/-- An availability slot: the Python dict `{"min": "HH:MM", "max": "HH:MM"}`. -/
structure Slot where
  min : String
  max : String
deriving Repr, DecidableEq

/-- Model of `has_partial_overlap(slot_a, slot_b)`. -/
def has_partial_overlap (a b : Slot) : Bool :=
  let start_a := parse_time a.min
  let end_a := parse_time a.max
  let start_b := parse_time b.min
  let end_b := parse_time b.max
  !(end_a ≤ start_b || end_b ≤ start_a)

/-- Model of `calculate_overlap_minutes(slot_a, slot_b)` (minutes, as a rational). -/
def calculate_overlap_minutes (a b : Slot) : ℚ :=
  let start_a : ℚ := parse_time a.min
  let end_a : ℚ := parse_time a.max
  let start_b : ℚ := parse_time b.min
  let end_b : ℚ := parse_time b.max
  let overlap := Min.min end_a end_b - Max.max start_a start_b
  Max.max 0 overlap

/-- Error outcomes of the scoring path; `divByZero` is Python's
`ZeroDivisionError` on float division. -/
inductive ScoreErr where
  | divByZero
deriving Repr, DecidableEq

/-- The nested `for slot_a in avail_a: for slot_b in avail_b:` loop of
`get_time_overlap_score`, folding the running `best_overlap`.  Division by
`required_time` happens only for an overlapping pair, exactly as in the
source. -/
def bestOverlapLoop (required : ℚ) : List (Slot × Slot) → ℚ → Except ScoreErr ℚ
  | [], best => .ok best
  | (a, b) :: rest, best =>
    if has_partial_overlap a b then
      if required = 0 then .error .divByZero
      else
        let overlap_minutes := calculate_overlap_minutes a b
        let ratio := overlap_minutes / required
        bestOverlapLoop required rest (Max.max best (Min.min ratio 1))
    else bestOverlapLoop required rest best

/-- Model of `get_time_overlap_score(avail_a, avail_b, required_time)`. -/
def get_time_overlap_score (avail_a avail_b : List Slot) (required : ℚ) :
    Except ScoreErr ℚ :=
  if avail_a.isEmpty || avail_b.isEmpty then .ok (1/2)
  else
    match bestOverlapLoop required
        ((avail_a.map (fun a => avail_b.map (fun b => (a, b)))).flatten) 0 with
    | .error e => .error e
    | .ok best => .ok (round3 best)

/-- Model of `check_time_availability(player_availability, match_time, required_minutes)`.
Note the match slot's `"max"` is `parse_time(match_time).strftime("%H:%M")`
— the start time re-formatted, not the start time plus the duration. -/
def check_time_availability (player_availability : List Slot)
    (match_time : String) (required_minutes : ℚ) : Except ScoreErr ℚ :=
  if player_availability.isEmpty then .ok (1/2)
  else
    let match_slot : Slot := ⟨match_time, fmtHHMM (parse_time match_time)⟩
    get_time_overlap_score [match_slot] player_availability required_minutes

/-! ## Data model (`src/models/match_request.py` and the dict shapes the
services exchange) -/

/-- A location dict `{lat, lon, zone}`.  `zone` is optional because the
pipeline's dict requests may carry a location without that key. -/
structure Loc where
  lat : ℚ
  lon : ℚ
  zone : Option String := none
deriving Repr, DecidableEq

/-- The merged per-candidate player record fed to the scoring service.
Every field named here is present in the dict built by
`MatchmakingService.find_candidates` (step 4 of the pipeline), so the
`player.get(..., default)` fallbacks of the scoring code reduce to plain
field reads — except `location`, which can be the empty dict (`none` here). -/
structure PlayerData where
  elo : ℚ
  location : Option Loc
  positions : List String
  acceptance_rate : ℚ
  last_active_days : ℚ
  availability : List Slot
deriving Repr, DecidableEq

/-- A match request dict.  `none` models an absent key (or Python `None`).
`elo_range` is a plain pair because both the scoring service
(`request['elo_range']`) and the description builders read it directly.
Keys used only to build the external vector-search filter
(`min_elo`/`max_elo`) are not modelled: the search result is an input here. -/
structure Request where
  categories : List String
  elo_range : ℤ × ℤ
  age_range : Option (ℤ × ℤ) := none
  gender_preference : Option String := none
  required_players : ℕ := 1
  location : Option Loc := none
  match_time : Option String := none
  required_time : Option ℤ := none
  preferred_position : Option String := none
deriving Repr, DecidableEq

/-! ## `src/services/scoring_service.py` -/

/-- The `scores` dict of `calculate_match_score`.  The `position_bonus` key is
written only when the request specifies a preferred position (`none` = key
absent). -/
structure Breakdown where
  vector : ℚ
  elo : ℚ
  distance : ℚ
  time : ℚ
  acceptance : ℚ
  activity : ℚ
  position_bonus : Option ℚ
deriving Repr, DecidableEq

/-- Return value of `calculate_match_score`. -/
structure ScoreResult where
  total : ℚ
  breakdown : Breakdown
  reasons : List String
  distance_km : ℚ
deriving Repr, DecidableEq

/-- Model of `ScoringService.calculate_match_score(player, request, vector_similarity)`.

`hav` is the `haversine_distance` function of `src/utils/geo_utils.py`,
passed as a parameter because its trigonometry is real-valued; every theorem
that needs it assumes only its nonnegativity (a property of the haversine
formula).  The `try/except` around the distance computation only re-raises,
and `math` trig on floats cannot raise, so it is modelled as a plain call on
the `dict.get`-defaulted coordinates — missing location data silently becomes
`(0, 0)`, exactly as in the source.  `.error .divByZero` marks each spot
where the source would raise `ZeroDivisionError`. -/
def calculate_match_score (hav : ℚ → ℚ → ℚ → ℚ → ℚ)
    (player : PlayerData) (request : Request) (vector_similarity : ℚ) :
    Except ScoreErr ScoreResult :=
  -- 1. Similitud vectorial (40%)
  let vector_score := vector_similarity * (4/10)
  let reasons1 : List String :=
    if vector_similarity > 85/100 then ["Perfil muy compatible"] else []
  -- 2. ELO compatibility (20%)
  let elo_center : ℚ := ((request.elo_range.1 : ℚ) + (request.elo_range.2 : ℚ)) / 2
  let elo_diff : ℚ := |player.elo - elo_center|
  let elo_tolerance : ℚ := ((request.elo_range.2 : ℚ) - (request.elo_range.1 : ℚ)) / 2
  if elo_tolerance = 0 then .error .divByZero else
  let elo_score := Max.max 0 (1 - elo_diff / elo_tolerance) * (2/10)
  let reasons2 := reasons1 ++ (if elo_diff < 100 then ["Nivel muy similar"] else [])
  -- 3. Distancia geográfica (15%)
  let player_lat := (player.location.map Loc.lat).getD 0
  let player_lon := (player.location.map Loc.lon).getD 0
  let request_lat := (request.location.map Loc.lat).getD 0
  let request_lon := (request.location.map Loc.lon).getD 0
  let distance := hav player_lat player_lon request_lat request_lon
  if 1 + distance / 10 = 0 then .error .divByZero else
  let distance_score := (1 / (1 + distance / 10)) * (15/100)
  let reasons3 := reasons2 ++ (if distance < 3 then ["Muy cerca del partido"] else [])
  -- 4. Disponibilidad horaria (10%)
  match check_time_availability player.availability
      (request.match_time.getD "18:00") ((request.required_time.getD 90 : ℤ) : ℚ) with
  | .error e => .error e
  | .ok time_score =>
    let time_term := time_score * (1/10)
    let reasons4 := reasons3 ++ (if time_score > 8/10 then ["Horario perfecto"] else [])
    -- 5. Acceptance rate (10%)
    let acceptance_score := player.acceptance_rate * (1/10)
    let reasons5 := reasons4 ++
      (if player.acceptance_rate > 8/10 then ["Alta tasa de aceptación"] else [])
    -- 6. Activity frequency (5%)
    let activity_score := Max.max 0 (1 - player.last_active_days / 30)
    let activity_term := activity_score * (5/100)
    let reasons6 := reasons5 ++
      (if player.last_active_days < 3 then ["Usuario muy activo"] else [])
    -- 7. Posición preferida (bonus si aplica)
    let pos := request.preferred_position.getD ""
    let bonus : Option ℚ :=
      if truthyStr request.preferred_position then
        if pos ∈ player.positions then some (5/100) else some (-(5/100))
      else none
    let reasons7 := reasons6 ++
      (if truthyStr request.preferred_position ∧ pos ∈ player.positions then
        ["Juega de " ++ (if pos = "FOREHAND" then "drive" else "revés")]
      else [])
    let total := vector_score + elo_score + distance_score + time_term +
      acceptance_score + activity_term + bonus.getD 0
    .ok { total := round3 total
          breakdown :=
            { vector := vector_score, elo := elo_score, distance := distance_score
              time := time_term, acceptance := acceptance_score
              activity := activity_term, position_bonus := bonus }
          reasons := reasons7
          distance_km := round2 distance }

/-! ## `src/services/matchmaking_service.py` -/

/-- One entry of `search_result['matches']` as returned by the similarity
index.  The only metadata key the pipeline reads is `'elo'`
(`match.get('metadata', {}).get('elo', 1500)`), so the opaque metadata dict is
modelled by that one optional entry. -/
structure MatchHit where
  id : String
  score : ℚ
  metaElo : Option ℚ := none
deriving Repr, DecidableEq

/-- A row of `PlayerRepository.get_players_by_ids`; `none` models an absent
dict key, so each `db_data.get(key, default)` of the merge step reads through
`Option.getD`. -/
structure DbRecord where
  elo : Option ℚ := none
  location : Option Loc := none
  positions : Option (List String) := none
  acceptance_rate : Option ℚ := none
  last_active_days : Option ℚ := none
  availability : Option (List Slot) := none
deriving Repr, DecidableEq

/-- Model of `db_players.get(player_id, ...)` with empty-dict default: the record for an id absent from the
bulk-fetch result is the empty dict, i.e. all keys missing. -/
def emptyDbRecord : DbRecord := {}

/-- Step 4 of the pipeline: the `player_data` dict merged from the repository
record and the vector-store metadata, with the documented defaults. -/
def mergePlayer (db : String → Option DbRecord) (hit : MatchHit) : PlayerData :=
  let db_data := (db hit.id).getD emptyDbRecord
  { elo := db_data.elo.getD (hit.metaElo.getD 1500)
    location := db_data.location
    positions := db_data.positions.getD []
    acceptance_rate := db_data.acceptance_rate.getD (1/2)
    last_active_days := db_data.last_active_days.getD 30
    availability := db_data.availability.getD [] }

/-- Model of `MatchmakingService._build_request_description(request)`: the text the
pipeline feeds to the embedding layer (leading underscore dropped for Lean).
Each clause is appended only when the corresponding key is truthy;
`elo_range` is a pair in this model, hence always truthy. -/
def build_request_description (request : Request) : String :=
  let parts : List String :=
    (if truthyStr (request.location.bind Loc.zone) then
      ["Partido en " ++ (request.location.bind Loc.zone).getD ""] else [])
    ++ ["ELO entre " ++ toString request.elo_range.1 ++ " y " ++
        toString request.elo_range.2]
    ++ (if truthyStr request.match_time then
        ["Horario " ++ request.match_time.getD ""] else [])
    ++ (if request.categories.isEmpty then [] else
        ["Categorías: " ++ String.intercalate ", " request.categories])
    ++ (if truthyStr request.preferred_position then
        ["Posición preferida: " ++ request.preferred_position.getD ""] else [])
    ++ (if truthyStr request.gender_preference then
        ["Género: " ++ request.gender_preference.getD ""] else [])
  if parts.isEmpty then "Partido de pádel" else String.intercalate ". " parts

/-- The candidate dicts the pipeline returns. -/
structure Candidate where
  player_id : String
  score : ℚ
  distance_km : ℚ
  reasons : List String
  metadata : Option ℚ
deriving Repr, DecidableEq

/-- Step 5 of the pipeline: score every retrieved match in retrieval order.
A per-candidate scoring exception aborts the whole run, as in Python. -/
def scoreCandidates (hav : ℚ → ℚ → ℚ → ℚ → ℚ) (request : Request)
    (db : String → Option DbRecord) : List MatchHit → Except ScoreErr (List Candidate)
  | [] => .ok []
  | hit :: rest =>
    match calculate_match_score hav (mergePlayer db hit) request hit.score with
    | .error e => .error e
    | .ok score_result =>
      match scoreCandidates hav request db rest with
      | .error e => .error e
      | .ok cs =>
        .ok ({ player_id := hit.id, score := score_result.total
               distance_km := score_result.distance_km
               reasons := score_result.reasons
               metadata := hit.metaElo } :: cs)

/-- One step of Python's stable descending `list.sort(key=score, reverse=True)`:
insert `x` (which precedes every element of `l` in the unsorted list) before
the first element whose score is not greater than `x`'s, so that equal scores
keep their original order. -/
def insertDesc (x : Candidate) : List Candidate → List Candidate
  | [] => [x]
  | y :: ys => if x.score < y.score then y :: insertDesc x ys else x :: y :: ys

/-- Stable sort by score descending (`candidates.sort(key=..., reverse=True)`). -/
def sortByScoreDesc : List Candidate → List Candidate
  | [] => []
  | x :: xs => insertDesc x (sortByScoreDesc xs)

/-- Model of `MatchmakingService.find_candidates`, from the similarity-search result
onward.  The embedding call and the vector search are external collaborators,
so the retrieved list `hits` (the source's `search_result['matches']`) and
the bulk-fetched records `db` are inputs; steps 3–5 (merge, score), the sort
and the top-20 truncation follow the source. -/
def find_candidates (hav : ℚ → ℚ → ℚ → ℚ → ℚ) (request : Request)
    (hits : List MatchHit) (db : String → Option DbRecord) :
    Except ScoreErr (List Candidate) :=
  match scoreCandidates hav request db hits with
  | .error e => .error e
  | .ok candidates => .ok ((sortByScoreDesc candidates).take 20)

/-! ## `src/infrastructure/external/embedding_service.py` -/

/-- Model of `EmbeddingService._build_request_description(request)` (leading underscore
dropped).  This builder runs on the `MatchRequest` model object, whose
`location['zone']`, `match_time`, `required_time`, `gender_preference` and
`required_players` fields are mandatory; on the shared `Request` structure the
mandatory reads appear as `Option.getD` (theorems about this builder supply
those fields, so the defaults never fire). -/
def embedding_service_build_request_description (request : Request) : String :=
  let parts : List String :=
    ["Partido de pádel categorías " ++ String.intercalate ", " request.categories,
     "ELO entre " ++ toString request.elo_range.1 ++ " y " ++
       toString request.elo_range.2,
     "Zona " ++ (request.location.bind Loc.zone).getD "",
     "Horario " ++ request.match_time.getD "",
     "Duración " ++ toString (request.required_time.getD 90) ++ " minutos",
     "Género " ++ request.gender_preference.getD ""]
    ++ (match request.age_range with
        | some (lo, hi) =>
          ["Edad entre " ++ toString lo ++ " y " ++ toString hi ++ " años"]
        | none => [])
    ++ (match request.preferred_position with
        | some p => ["Se busca jugador de " ++ strLower p]
        | none => [])
    ++ ["Se necesitan " ++ toString request.required_players ++ " jugadores"]
  String.intercalate ". " parts ++ "."

/-! ## `src/infrastructure/services/openai_service.py`

The cache key `sha256(model :: text)` is modelled by the pair
`(model, text)` itself — the code relies on the hash being injective.
The in-memory dict `_cache` is an association list with insert-at-front
shadowing (same lookup semantics as dict assignment).  The gateway client is
a function parameter: `f` for `create_embedding`, `g` for
`create_embeddings_batch`.  The state also logs the gateway invocations so
that call-count properties can be stated. -/

/-- An embedding vector (Python `List[float]`). -/
abbrev Vec := List ℚ

abbrev Cache := List ((String × String) × Vec)

def cacheGet (c : Cache) (k : String × String) : Option Vec :=
  (c.find? (fun e => e.1 == k)).map (·.2)

def cacheInsert (c : Cache) (k : String × String) (v : Vec) : Cache :=
  (k, v) :: c

/-- Mutable state of an `OpenAIService` instance, plus a log of gateway
invocations (single-embedding call count and the text list of every batch
call). -/
structure EmbState where
  cache : Cache
  singleCalls : ℕ := 0
  batchCalls : List (List String) := []
deriving Repr, DecidableEq

/-- Errors of the embedding layer: pydantic validation failure, and Python's
`IndexError` / `AssertionError` / `ValueError`. -/
inductive EmbErr where
  | validationError
  | indexError
  | assertionError
  | valueError
deriving Repr, DecidableEq

/-- Model of `EmbeddingResponse` (the `dimensions` validator forces
`dimensions = embedding.length`, which the constructor call satisfies). -/
structure EmbeddingResponseM where
  embedding : Vec
  model : String
  dimensions : ℕ
deriving Repr, DecidableEq

/-- Model of `BatchEmbeddingResponse`. -/
structure BatchEmbeddingResponseM where
  embeddings : List Vec
  model : String
  dimensions : ℕ
  count : ℕ
deriving Repr, DecidableEq

/-- Model of `OpenAIService.generate_embedding(text, model)`.  Validation
(`EmbeddingRequest`: blank text) runs before the cache lookup; on a miss the
gateway result is cached before the response object is validated
(`EmbeddingResponse` rejects an empty vector). -/
def generate_embedding (f : String → Vec) (clientModel : String)
    (text : String) (model : Option String) (st : EmbState) :
    Except EmbErr EmbeddingResponseM × EmbState :=
  let model_to_use := model.getD clientModel
  if pyBlank text then (.error .validationError, st)
  else
    let key := (model_to_use, text)
    match cacheGet st.cache key with
    | some embedding =>
      if embedding.isEmpty then (.error .validationError, st)
      else (.ok ⟨embedding, model_to_use, embedding.length⟩, st)
    | none =>
      let embedding := f text
      let st' := { st with cache := cacheInsert st.cache key embedding
                           singleCalls := st.singleCalls + 1 }
      if embedding.isEmpty then (.error .validationError, st')
      else (.ok ⟨embedding, model_to_use, embedding.length⟩, st')

/-- The cache-scan loop of `generate_embeddings_batch` over one chunk:
placeholder list `results_chunk`, `missing_texts` and `missing_positions`,
collected in index order. -/
def scanChunk (mdl : String) (c : Cache) :
    List String → List (Option Vec) × List String × List ℕ
  | [] => ([], [], [])
  | t :: ts =>
    let r := scanChunk mdl c ts
    match cacheGet c (mdl, t) with
    | some v => (some v :: r.1, r.2.1, r.2.2.map (· + 1))
    | none => (none :: r.1, t :: r.2.1, 0 :: r.2.2.map (· + 1))

/-- The write-back loop `for idx, emb in enumerate(created)`: pairs each
created vector with `missing_positions[idx]` (raising `IndexError` when
`created` is longer), stores it in the cache under `chunk[pos]` and writes it
into `results_chunk[pos]`.  The cache is threaded even on error, as Python's
mutations survive the exception. -/
def placeLoop (mdl : String) (chunk : List String) :
    List Vec → List ℕ → List (Option Vec) → Cache →
    Except EmbErr (List (Option Vec)) × Cache
  | [], _, res, c => (.ok res, c)
  | _ :: _, [], _, c => (.error .indexError, c)
  | v :: vs, p :: ps, res, c =>
    placeLoop mdl chunk vs ps (res.set p v) (cacheInsert c (mdl, chunk.getD p "") v)

/-- The final `assert emb is not None` pass over `results_chunk`. -/
def unwrapAll : List (Option Vec) → Except EmbErr (List Vec)
  | [] => .ok []
  | none :: _ => .error .assertionError
  | some v :: rest => (unwrapAll rest).map (v :: ·)

/-- One iteration of the chunk loop of `generate_embeddings_batch`: scan the
cache, call the gateway for the missing texts only (logging the call), write
back, unwrap. -/
def processChunk (g : List String → List Vec) (mdl : String)
    (chunk : List String) (st : EmbState) :
    Except EmbErr (List Vec) × EmbState :=
  let scan := scanChunk mdl st.cache chunk
  let res := scan.1
  let miss := scan.2.1
  let pos := scan.2.2
  if miss.isEmpty then
    (unwrapAll res, st)
  else
    let created := g miss
    let st' := { st with batchCalls := st.batchCalls ++ [miss] }
    match placeLoop mdl chunk created pos res st'.cache with
    | (.error e, c') => (.error e, { st' with cache := c' })
    | (.ok res', c') => (unwrapAll res', { st' with cache := c' })

/-- The chunk loop `for start in range(0, len(texts), max_batch_size)`
(Python raises `ValueError` on step `0`). -/
def processChunks (g : List String → List Vec) (mdl : String) (m : ℕ)
    (texts : List String) (st : EmbState) :
    Except EmbErr (List Vec) × EmbState :=
  if hm : m = 0 then (.error .valueError, st)
  else if ht : texts.isEmpty then (.ok [], st)
  else
    match processChunk g mdl (texts.take m) st with
    | (.error e, st') => (.error e, st')
    | (.ok vs, st') =>
      match processChunks g mdl m (texts.drop m) st' with
      | (.error e, st'') => (.error e, st'')
      | (.ok rest, st'') => (.ok (vs ++ rest), st'')
termination_by texts.length
decreasing_by
  simp only [List.length_drop]
  exact Nat.sub_lt (by simpa [List.isEmpty_iff_length_eq_zero, Nat.pos_iff_ne_zero] using ht)
    (Nat.pos_of_ne_zero hm)

/-- Model of `OpenAIService.generate_embeddings_batch(texts, model)`.
`BatchEmbeddingRequest` validation (non-empty list, no blank text) runs
first; the response's `dimensions` is `len(all_embeddings[0])` or `0`. -/
def generate_embeddings_batch (g : List String → List Vec) (clientModel : String)
    (texts : List String) (model : Option String) (max_batch_size : ℕ)
    (st : EmbState) : Except EmbErr BatchEmbeddingResponseM × EmbState :=
  let model_to_use := model.getD clientModel
  if texts.isEmpty then (.error .validationError, st)
  else if texts.any pyBlank then (.error .validationError, st)
  else
    match processChunks g model_to_use max_batch_size texts st with
    | (.error e, st') => (.error e, st')
    | (.ok all, st') =>
      (.ok { embeddings := all, model := model_to_use
             dimensions := (all.headD []).length, count := all.length }, st')

/-! ## Helper lemmas -/

theorem round3_zero : round3 0 = 0 := by
  have h : (⌊(0 : ℚ) * 1000 + 1/2⌋ : ℤ) = 0 := by
    rw [Int.floor_eq_iff] <;> norm_num
  rw [round3, h]
  norm_num

theorem bestOverlapLoop_isOk (required : ℚ) (h : required ≠ 0) :
    ∀ (pairs : List (Slot × Slot)) (best : ℚ),
      ∃ q, bestOverlapLoop required pairs best = .ok q := by
  intro pairs
  induction pairs with
  | nil => exact fun best => ⟨best, rfl⟩
  | cons p rest ih =>
    intro best
    obtain ⟨a, b⟩ := p
    rw [bestOverlapLoop]
    by_cases hpo : has_partial_overlap a b
    · simp only [hpo, if_true, h, if_false]
      exact ih _
    · simp only [hpo, if_false]
      exact ih best

theorem get_time_overlap_score_isOk (avail_a avail_b : List Slot) (required : ℚ)
    (h : required ≠ 0) : ∃ q, get_time_overlap_score avail_a avail_b required = .ok q := by
  rw [get_time_overlap_score]
  split
  · exact ⟨1/2, rfl⟩
  · obtain ⟨q, hq⟩ := bestOverlapLoop_isOk required h
      ((avail_a.map (fun a => avail_b.map (fun b => (a, b)))).flatten) 0
    rw [hq]
    exact ⟨round3 q, rfl⟩

theorem check_time_availability_isOk (avail : List Slot) (t : String) (required : ℚ)
    (h : required ≠ 0) : ∃ q, check_time_availability avail t required = .ok q := by
  rw [check_time_availability]
  split
  · exact ⟨1/2, rfl⟩
  · exact get_time_overlap_score_isOk _ _ _ h

/-- The three division sites of `calculate_match_score`; when none divides by
zero the call succeeds, with the ELO term and the reported distance as in the
source formulas. -/
theorem calculate_match_score_isOk (hav : ℚ → ℚ → ℚ → ℚ → ℚ)
    (player : PlayerData) (request : Request) (vs : ℚ)
    (htol : ((request.elo_range.2 : ℚ) - (request.elo_range.1 : ℚ)) / 2 ≠ 0)
    (hd : 1 + hav ((player.location.map Loc.lat).getD 0)
        ((player.location.map Loc.lon).getD 0)
        ((request.location.map Loc.lat).getD 0)
        ((request.location.map Loc.lon).getD 0) / 10 ≠ 0)
    (hrt : ((request.required_time.getD 90 : ℤ) : ℚ) ≠ 0) :
    ∃ r, calculate_match_score hav player request vs = .ok r ∧
      r.breakdown.elo = Max.max 0
        (1 - |player.elo - ((request.elo_range.1 : ℚ) + (request.elo_range.2 : ℚ)) / 2| /
          (((request.elo_range.2 : ℚ) - (request.elo_range.1 : ℚ)) / 2)) * (2/10) ∧
      r.distance_km = round2 (hav ((player.location.map Loc.lat).getD 0)
        ((player.location.map Loc.lon).getD 0)
        ((request.location.map Loc.lat).getD 0)
        ((request.location.map Loc.lon).getD 0)) := by
  rw [calculate_match_score]
  rw [if_neg htol, if_neg hd]
  obtain ⟨q, hq⟩ := check_time_availability_isOk player.availability
    (request.match_time.getD "18:00") ((request.required_time.getD 90 : ℤ) : ℚ) hrt
  rw [hq]
  exact ⟨_, rfl, rfl, rfl⟩

/-! ## Claim theorems -/

/-- C10: a text that is empty or whitespace-only fails `EmbeddingRequest`
validation before the cache is consulted or the gateway called, and the
service state (cache and call log) is returned unchanged. -/
theorem c10_blank_text_rejected_before_cache (f : String → Vec) (cm text : String)
    (model : Option String) (st : EmbState) (h : pyBlank text = true) :
    generate_embedding f cm text model st = (.error .validationError, st) := by
  rw [generate_embedding]
  simp [h]

theorem c10_blank_text_rejected_before_cache_witness :
    pyBlank "   " = true ∧
      generate_embedding (fun _ => [1]) "text-embedding-3-small" "   " none
        ⟨[], 0, []⟩ = (.error .validationError, ⟨[], 0, []⟩) :=
  ⟨by decide, c10_blank_text_rejected_before_cache (fun _ => [1])
    "text-embedding-3-small" "   " none ⟨[], 0, []⟩ (by decide)⟩

/-- C2: when the similarity search retrieves zero matches, the pipeline
returns an empty success list (`Except.ok []`) — it does not raise the
`NoCandidatesFoundError` business condition the spec requires (that
exception class exists in the code base but `find_candidates` never raises
it). -/
theorem c2_empty_retrieval_returns_empty_success (hav : ℚ → ℚ → ℚ → ℚ → ℚ)
    (request : Request) (db : String → Option DbRecord) :
    find_candidates hav request [] db = .ok [] := rfl

/-- C3: scoring a merged candidate whose record has no location at all does
not fail; it behaves exactly as if the player were located at the default
coordinates `(0, 0)` (first conjunct), and in particular succeeds on a
concrete such candidate, reporting the distance computed from `(0, 0)`
(second conjunct, with a haversine oracle pinned to `5` km). -/
theorem c3_missing_location_scored_as_origin :
    (∀ (hav : ℚ → ℚ → ℚ → ℚ → ℚ) (elo acc last : ℚ) (pos : List String)
      (avail : List Slot) (req : Request) (vs : ℚ),
      calculate_match_score hav ⟨elo, none, pos, acc, last, avail⟩ req vs =
        calculate_match_score hav ⟨elo, some ⟨0, 0, none⟩, pos, acc, last, avail⟩ req vs) ∧
    (∃ r, calculate_match_score (fun _ _ _ _ => 5)
        ⟨1500, none, [], 1/2, 30, []⟩
        { categories := ["CUARTA"], elo_range := (1400, 1600),
          location := some ⟨-31, -64, some "Palermo"⟩,
          match_time := some "18:00", required_time := some 90 } (7/10) = .ok r ∧
      r.distance_km = round2 5) := by
  constructor
  · intro hav elo acc last pos avail req vs
    rfl
  · obtain ⟨r, hr, _, hdist⟩ := calculate_match_score_isOk (fun _ _ _ _ => 5)
      ⟨1500, none, [], 1/2, 30, []⟩
      { categories := ["CUARTA"], elo_range := (1400, 1600),
        location := some ⟨-31, -64, some "Palermo"⟩,
        match_time := some "18:00", required_time := some 90 } (7/10)
      (by norm_num) (by norm_num) (by norm_num)
    exact ⟨r, hr, hdist⟩

/-- C1: the match is **not** represented as a slot of length
`requiredDurationMinutes`: `check_time_availability` builds the slot
`{"min": matchTime, "max": strftime(strptime(matchTime))}`, whose end equals
its start.  A player available 17:00–21:00 therefore scores `0` — not `1` —
for a 90-minute match at 18:00, although that availability fully covers
`[18:00, 19:30]`. -/
theorem c1_match_slot_has_zero_length :
    check_time_availability [⟨"17:00", "21:00"⟩] "18:00" 90 = .ok 0 ∧
      check_time_availability [⟨"17:00", "21:00"⟩] "18:00" 90 ≠ .ok 1 := by
  have hp1 : parse_time "18:00" = 1080 := by decide
  have hfmt : fmtHHMM 1080 = "18:00" := by decide
  have hpo : has_partial_overlap ⟨"18:00", "18:00"⟩ ⟨"17:00", "21:00"⟩ = true := by decide
  have hco : calculate_overlap_minutes ⟨"18:00", "18:00"⟩ ⟨"17:00", "21:00"⟩ = 0 := by
    have hp2 : parse_time "17:00" = 1020 := by decide
    have hp3 : parse_time "21:00" = 1260 := by decide
    rw [calculate_overlap_minutes]
    norm_num [hp1, hp2, hp3]
  have hbo : bestOverlapLoop 90 [(⟨"18:00", "18:00"⟩, ⟨"17:00", "21:00"⟩)] 0 = .ok 0 := by
    rw [bestOverlapLoop]
    norm_num [hpo, hco, bestOverlapLoop]
  have hg : get_time_overlap_score [⟨"18:00", "18:00"⟩] [⟨"17:00", "21:00"⟩] 90 = .ok 0 := by
    rw [get_time_overlap_score]
    norm_num [List.map, List.flatten, hbo, round3_zero]
  have hmain : check_time_availability [⟨"17:00", "21:00"⟩] "18:00" 90 = .ok 0 := by
    rw [check_time_availability]
    norm_num [hp1, hfmt, hg]
  refine ⟨hmain, fun hcontra => ?_⟩
  rw [hmain] at hcontra
  have h01 : (0 : ℚ) = 1 := Except.ok.inj hcontra
  norm_num at h01

/-- C9: for a request whose `elo_range = (a, b)` satisfies `a < b` (and whose
remaining fields respect the data model: a nonnegative haversine distance and
a duration of at least 60 minutes), `calculate_match_score` raises no
division-by-zero and its ELO breakdown term is
`max(0, 1 - |elo - center| / tolerance) * 0.20` with `center = (a+b)/2`,
`tolerance = (b-a)/2`. -/
theorem c9_elo_term_no_div_by_zero (hav : ℚ → ℚ → ℚ → ℚ → ℚ)
    (player : PlayerData) (request : Request) (vs : ℚ) (a b : ℤ)
    (hab : request.elo_range = (a, b)) (h : a < b)
    (hd : 0 ≤ hav ((player.location.map Loc.lat).getD 0)
        ((player.location.map Loc.lon).getD 0)
        ((request.location.map Loc.lat).getD 0)
        ((request.location.map Loc.lon).getD 0))
    (rt : ℤ) (hrt : request.required_time = some rt) (h60 : 60 ≤ rt) :
    ∃ r, calculate_match_score hav player request vs = .ok r ∧
      r.breakdown.elo = Max.max 0
        (1 - |player.elo - ((a : ℚ) + (b : ℚ)) / 2| / (((b : ℚ) - (a : ℚ)) / 2)) *
        (2/10) := by
  have hba : (0 : ℚ) < ((b : ℚ) - (a : ℚ)) / 2 := by
    have : (a : ℚ) < (b : ℚ) := by exact_mod_cast h
    linarith
  have htol : ((request.elo_range.2 : ℚ) - (request.elo_range.1 : ℚ)) / 2 ≠ 0 := by
    rw [hab]
    exact ne_of_gt hba
  have hdist : 1 + hav ((player.location.map Loc.lat).getD 0)
      ((player.location.map Loc.lon).getD 0)
      ((request.location.map Loc.lat).getD 0)
      ((request.location.map Loc.lon).getD 0) / 10 ≠ 0 := by
    have h10 : 0 ≤ hav ((player.location.map Loc.lat).getD 0)
        ((player.location.map Loc.lon).getD 0)
        ((request.location.map Loc.lat).getD 0)
        ((request.location.map Loc.lon).getD 0) / 10 := by
      exact div_nonneg hd (by norm_num)
    intro hzero
    linarith
  have hreq : ((request.required_time.getD 90 : ℤ) : ℚ) ≠ 0 := by
    rw [hrt]
    have : (0 : ℤ) < rt := by omega
    simp only [Option.getD_some]
    exact_mod_cast ne_of_gt this
  obtain ⟨r, hok, helo, _⟩ :=
    calculate_match_score_isOk hav player request vs htol hdist hreq
  refine ⟨r, hok, ?_⟩
  rw [helo, hab]

theorem c9_elo_term_no_div_by_zero_witness :
    ∃ r, calculate_match_score (fun _ _ _ _ => 5)
        ⟨1520, some ⟨-31, -64, none⟩, [], 1/2, 30, []⟩
        { categories := ["CUARTA"], elo_range := (1400, 1600),
          location := some ⟨-31, -64, some "Palermo"⟩,
          match_time := some "18:00", required_time := some 90 } (87/100) = .ok r ∧
      r.breakdown.elo = Max.max 0
        (1 - |(1520 : ℚ) - (((1400 : ℤ) : ℚ) + ((1600 : ℤ) : ℚ)) / 2| /
          ((((1600 : ℤ) : ℚ) - ((1400 : ℤ) : ℚ)) / 2)) * (2/10) :=
  c9_elo_term_no_div_by_zero (fun _ _ _ _ => 5)
    ⟨1520, some ⟨-31, -64, none⟩, [], 1/2, 30, []⟩
    { categories := ["CUARTA"], elo_range := (1400, 1600),
      location := some ⟨-31, -64, some "Palermo"⟩,
      match_time := some "18:00", required_time := some 90 } (87/100)
    1400 1600 rfl (by decide) (by norm_num) 90 rfl (by decide)

/-- A fully populated request used to compare the two description builders. -/
def c4req : Request :=
  { categories := ["CUARTA"], elo_range := (1400, 1600), age_range := some (25, 40),
    gender_preference := some "MALE", required_players := 2,
    location := some ⟨-31, -64, some "Palermo"⟩, match_time := some "18:00",
    required_time := some 90, preferred_position := some "FOREHAND" }

set_option maxRecDepth 16384 in
/-- C4 counterexample: the text the pipeline actually feeds to the embedding
layer (`MatchmakingService._build_request_description`) starts with the zone
clause and has no duration, age or "need N players" clause; it differs from
the claimed composition, which is the one built by
`EmbeddingService._build_request_description` (a builder the pipeline never
calls). -/
theorem c4_pipeline_feeds_different_text :
    build_request_description c4req =
      "Partido en Palermo. ELO entre 1400 y 1600. Horario 18:00. Categorías: CUARTA. Posición preferida: FOREHAND. Género: MALE" ∧
    embedding_service_build_request_description c4req =
      "Partido de pádel categorías CUARTA. ELO entre 1400 y 1600. Zona Palermo. Horario 18:00. Duración 90 minutos. Género MALE. Edad entre 25 y 40 años. Se busca jugador de forehand. Se necesitan 2 jugadores." ∧
    build_request_description c4req ≠ embedding_service_build_request_description c4req := by
  refine ⟨by decide, by decide, by decide⟩

set_option maxRecDepth 16384 in
set_option maxHeartbeats 1000000 in
/-- C4 (amended): the claimed clause order — accepted categories, ELO range,
zone, match time, duration, gender, then optional age range and
preferred-position clause, then the "need N players" clause — is the order of
`EmbeddingService._build_request_description`, shown here for every request
with all optional fields present; the pipeline itself feeds the different
text of `MatchmakingService._build_request_description` (see the
counterexample). -/
theorem c4_embedding_service_clause_order (cats : List String)
    (a b lo hi dur : ℤ) (n : ℕ) (zone t g p : String) (lat lon : ℚ) :
    embedding_service_build_request_description
      { categories := cats, elo_range := (a, b), age_range := some (lo, hi),
        gender_preference := some g, required_players := n,
        location := some ⟨lat, lon, some zone⟩, match_time := some t,
        required_time := some dur, preferred_position := some p } =
      "Partido de pádel categorías " ++ String.intercalate ", " cats ++
      ". ELO entre " ++ toString a ++ " y " ++ toString b ++
      ". Zona " ++ zone ++ ". Horario " ++ t ++
      ". Duración " ++ toString dur ++ " minutos. Género " ++ g ++
      ". Edad entre " ++ toString lo ++ " y " ++ toString hi ++
      " años. Se busca jugador de " ++ strLower p ++
      ". Se necesitan " ++ toString n ++ " jugadores." := by
  refine String.ext ?_
  simp only [embedding_service_build_request_description, Option.getD_some,
    Option.some_bind, String.intercalate, String.intercalate.go,
    String.data_append, List.append_assoc, List.cons_append, List.nil_append]

/-- C7: calling `generate_embedding` twice with identical `(text, model)`
from any starting state returns identical results, makes at most one
single-embedding gateway call in total across the two invocations, and never
touches the batch gateway. -/
theorem c7_get_or_compute_idempotent (f : String → Vec) (cm text : String)
    (model : Option String) (st : EmbState) :
    (generate_embedding f cm text model
        (generate_embedding f cm text model st).2).1 =
      (generate_embedding f cm text model st).1 ∧
    (generate_embedding f cm text model
        (generate_embedding f cm text model st).2).2.singleCalls ≤
      st.singleCalls + 1 ∧
    (generate_embedding f cm text model
        (generate_embedding f cm text model st).2).2.batchCalls =
      st.batchCalls := by
  by_cases hb : pyBlank text
  · simp [generate_embedding, hb]
  · cases hcg : cacheGet st.cache (model.getD cm, text) with
    | some v =>
      by_cases he : v.isEmpty
      · simp [generate_embedding, hb, hcg, he, Nat.le_succ]
      · simp [generate_embedding, hb, hcg, he, Nat.le_succ]
    | none =>
      have hins : cacheGet (cacheInsert st.cache (model.getD cm, text) (f text))
          (model.getD cm, text) = some (f text) := by
        simp [cacheGet, cacheInsert, List.find?]
      by_cases he : (f text).isEmpty
      · simp [generate_embedding, hb, hcg, he, hins]
      · simp [generate_embedding, hb, hcg, he, hins]

/-! ### Sorting lemmas for the pipeline ranking -/

theorem mem_insertDesc {x y : Candidate} {l : List Candidate} :
    y ∈ insertDesc x l ↔ y = x ∨ y ∈ l := by
  induction l with
  | nil => simp [insertDesc]
  | cons z zs ih =>
    rw [insertDesc]
    split
    · simp only [List.mem_cons, ih]
      tauto
    · simp [List.mem_cons]

theorem length_sortByScoreDesc (l : List Candidate) :
    (sortByScoreDesc l).length = l.length := by
  have hins : ∀ (x : Candidate) (m : List Candidate),
      (insertDesc x m).length = m.length + 1 := by
    intro x m
    induction m with
    | nil => rfl
    | cons z zs ih =>
      rw [insertDesc]
      split
      · simp [ih]
      · simp
  induction l with
  | nil => rfl
  | cons x xs ih => simp [sortByScoreDesc, hins, ih]

theorem pairwise_insertDesc {x : Candidate} {l : List Candidate}
    (h : l.Pairwise (fun a b => b.score ≤ a.score)) :
    (insertDesc x l).Pairwise (fun a b => b.score ≤ a.score) := by
  induction l with
  | nil => simp [insertDesc]
  | cons y ys ih =>
    rw [List.pairwise_cons] at h
    obtain ⟨hy, hys⟩ := h
    rw [insertDesc]
    split
    next hxy =>
      rw [List.pairwise_cons]
      refine ⟨?_, ih hys⟩
      intro z hz
      rcases mem_insertDesc.mp hz with rfl | hz
      · exact le_of_lt hxy
      · exact hy z hz
    next hxy =>
      push_neg at hxy
      rw [List.pairwise_cons]
      refine ⟨?_, List.pairwise_cons.mpr ⟨hy, hys⟩⟩
      intro z hz
      rcases List.mem_cons.mp hz with rfl | hz
      · exact hxy
      · exact le_trans (hy z hz) hxy

theorem pairwise_sortByScoreDesc (l : List Candidate) :
    (sortByScoreDesc l).Pairwise (fun a b => b.score ≤ a.score) := by
  induction l with
  | nil => simp [sortByScoreDesc]
  | cons x xs ih => exact pairwise_insertDesc ih

theorem filter_insertDesc_ne {x : Candidate} {s : ℚ} (l : List Candidate)
    (hx : ¬ x.score = s) :
    (insertDesc x l).filter (fun c => decide (c.score = s)) =
      l.filter (fun c => decide (c.score = s)) := by
  induction l with
  | nil => simp [insertDesc, hx]
  | cons y ys ih =>
    rw [insertDesc]
    split
    · rw [List.filter_cons, List.filter_cons, ih]
    · rw [List.filter_cons_of_neg (by simpa using hx)]

theorem filter_insertDesc_eq {x : Candidate} {s : ℚ} {l : List Candidate}
    (hl : l.Pairwise (fun a b => b.score ≤ a.score)) (hx : x.score = s) :
    (insertDesc x l).filter (fun c => decide (c.score = s)) =
      x :: l.filter (fun c => decide (c.score = s)) := by
  induction l with
  | nil => simp [insertDesc, hx]
  | cons y ys ih =>
    rw [insertDesc]
    split
    next hxy =>
      have hy : ¬ y.score = s := by
        intro hys
        rw [hx] at hxy
        rw [hys] at hxy
        exact lt_irrefl s hxy
      rw [List.filter_cons_of_neg (by simpa using hy),
        List.filter_cons_of_neg (by simpa using hy)]
      exact ih (List.pairwise_cons.mp hl).2
    next =>
      rw [List.filter_cons_of_pos (by simpa using hx)]

theorem filter_sortByScoreDesc (l : List Candidate) (s : ℚ) :
    (sortByScoreDesc l).filter (fun c => decide (c.score = s)) =
      l.filter (fun c => decide (c.score = s)) := by
  induction l with
  | nil => rfl
  | cons x xs ih =>
    show (insertDesc x (sortByScoreDesc xs)).filter _ = _
    by_cases hx : x.score = s
    · rw [filter_insertDesc_eq (pairwise_sortByScoreDesc xs) hx, ih,
        List.filter_cons_of_pos (by simpa using hx)]
    · rw [filter_insertDesc_ne _ hx, ih,
        List.filter_cons_of_neg (by simpa using hx)]

theorem scoreCandidates_length (hav : ℚ → ℚ → ℚ → ℚ → ℚ) (request : Request)
    (db : String → Option DbRecord) :
    ∀ (hits : List MatchHit) (cs : List Candidate),
      scoreCandidates hav request db hits = .ok cs → cs.length = hits.length := by
  intro hits
  induction hits with
  | nil =>
    intro cs h
    rw [scoreCandidates] at h
    cases h
    rfl
  | cons hit rest ih =>
    intro cs h
    rw [scoreCandidates] at h
    cases hsc : calculate_match_score hav (mergePlayer db hit) request hit.score with
    | error e => rw [hsc] at h; cases h
    | ok r =>
      rw [hsc] at h
      cases hrec : scoreCandidates hav request db rest with
      | error e => rw [hrec] at h; cases h
      | ok cs2 =>
        rw [hrec] at h
        cases h
        simp [ih cs2 hrec]

/-- C6: whenever the pipeline returns a candidate list, that list is the
stable descending-by-score sort of the scored candidates truncated to 20:
it is non-increasingly sorted, its length is at most
`min 20 (retrieved count)`, and the candidates at any given score appear as a
prefix of the scored-order candidates at that score (equal scores keep
scoring order). -/
theorem c6_ranking_sorted_bounded_stable (hav : ℚ → ℚ → ℚ → ℚ → ℚ)
    (request : Request) (db : String → Option DbRecord) (hits : List MatchHit)
    (res : List Candidate) (h : find_candidates hav request hits db = .ok res) :
    ∃ cs, scoreCandidates hav request db hits = .ok cs ∧
      res = (sortByScoreDesc cs).take 20 ∧
      res.length ≤ Min.min 20 hits.length ∧
      res.Pairwise (fun a b => b.score ≤ a.score) ∧
      ∀ s : ℚ, res.filter (fun c => decide (c.score = s)) <+:
        cs.filter (fun c => decide (c.score = s)) := by
  rw [find_candidates] at h
  cases hsc : scoreCandidates hav request db hits with
  | error e => rw [hsc] at h; cases h
  | ok cs =>
    rw [hsc] at h
    cases h
    refine ⟨cs, rfl, rfl, ?_, ?_, ?_⟩
    · rw [List.length_take, length_sortByScoreDesc,
        scoreCandidates_length hav request db hits cs hsc]
    · exact List.Pairwise.sublist (List.take_sublist 20 _)
        (pairwise_sortByScoreDesc cs)
    · intro s
      have hpre := (List.take_prefix 20 (sortByScoreDesc cs)).filter
        (fun c => decide (c.score = s))
      rw [filter_sortByScoreDesc] at hpre
      exact hpre

theorem c6_ranking_sorted_bounded_stable_witness :
    ∃ cs, scoreCandidates (fun _ _ _ _ => 0)
        { categories := [], elo_range := (1400, 1600) } (fun _ => none) [] = .ok cs ∧
      ([] : List Candidate) = (sortByScoreDesc cs).take 20 ∧
      ([] : List Candidate).length ≤ Min.min 20 ([] : List MatchHit).length ∧
      ([] : List Candidate).Pairwise (fun a b => b.score ≤ a.score) ∧
      ∀ s : ℚ, ([] : List Candidate).filter (fun c => decide (c.score = s)) <+:
        cs.filter (fun c => decide (c.score = s)) :=
  c6_ranking_sorted_bounded_stable (fun _ _ _ _ => 0)
    { categories := [], elo_range := (1400, 1600) } (fun _ => none) [] [] rfl

/-! ### Chunk-scan and write-back lemmas for the batch operation -/

theorem scanChunk_res_length (mdl : String) (c : Cache) :
    ∀ ts : List String, (scanChunk mdl c ts).1.length = ts.length := by
  intro ts
  induction ts with
  | nil => rfl
  | cons t ts ih =>
    rw [scanChunk]
    cases hcg : cacheGet c (mdl, t) <;> simp [ih]

theorem scanChunk_pos_length (mdl : String) (c : Cache) :
    ∀ ts : List String,
      (scanChunk mdl c ts).2.2.length = (scanChunk mdl c ts).2.1.length := by
  intro ts
  induction ts with
  | nil => rfl
  | cons t ts ih =>
    rw [scanChunk]
    cases hcg : cacheGet c (mdl, t) <;> simp [ih]

theorem scanChunk_pos_lt (mdl : String) (c : Cache) :
    ∀ (ts : List String) (p : ℕ), p ∈ (scanChunk mdl c ts).2.2 → p < ts.length := by
  intro ts
  induction ts with
  | nil => intro p hp; simp [scanChunk] at hp
  | cons t ts ih =>
    intro p hp
    rw [scanChunk] at hp
    cases hcg : cacheGet c (mdl, t) with
    | none =>
      rw [hcg] at hp
      simp only [List.mem_cons, List.mem_map] at hp
      rcases hp with rfl | ⟨q, hq, rfl⟩
      · simp
      · simpa using Nat.succ_lt_succ (ih q hq)
    | some v =>
      rw [hcg] at hp
      simp only [List.mem_map] at hp
      obtain ⟨q, hq, rfl⟩ := hp
      simpa using Nat.succ_lt_succ (ih q hq)

theorem scanChunk_pos_pairwise (mdl : String) (c : Cache) :
    ∀ ts : List String, (scanChunk mdl c ts).2.2.Pairwise (· < ·) := by
  intro ts
  induction ts with
  | nil => simp [scanChunk]
  | cons t ts ih =>
    rw [scanChunk]
    cases hcg : cacheGet c (mdl, t) with
    | none =>
      simp only [List.pairwise_cons, List.pairwise_map, List.mem_map]
      constructor
      · rintro x ⟨q, hq, rfl⟩
        exact Nat.succ_pos q
      · exact ih.imp (by omega)
    | some v =>
      simp only [List.pairwise_map]
      exact ih.imp (by omega)

theorem scanChunk_res_none (mdl : String) (c : Cache) :
    ∀ (ts : List String) (p : ℕ), p ∈ (scanChunk mdl c ts).2.2 →
      (scanChunk mdl c ts).1[p]? = some none := by
  intro ts
  induction ts with
  | nil => intro p hp; simp [scanChunk] at hp
  | cons t ts ih =>
    intro p hp
    cases hcg : cacheGet c (mdl, t) with
    | none =>
      rw [scanChunk] at hp ⊢
      rw [hcg] at hp ⊢
      simp only [List.mem_cons, List.mem_map] at hp
      rcases hp with rfl | ⟨q, hq, rfl⟩
      · simp
      · simpa using ih q hq
    | some v =>
      rw [scanChunk] at hp ⊢
      rw [hcg] at hp ⊢
      simp only [List.mem_map] at hp
      obtain ⟨q, hq, rfl⟩ := hp
      simpa using ih q hq

theorem placeLoop_too_long (mdl : String) (chunk : List String) :
    ∀ (vs : List Vec) (ps : List ℕ) (res : List (Option Vec)) (c : Cache),
      ps.length < vs.length →
      (placeLoop mdl chunk vs ps res c).1 = .error .indexError := by
  intro vs
  induction vs with
  | nil => intro ps res c h; simp at h
  | cons v vs ih =>
    intro ps res c h
    cases ps with
    | nil => rfl
    | cons p ps =>
      rw [placeLoop]
      exact ih ps _ _ (by simpa using h)

theorem placeLoop_ok_untouched (mdl : String) (chunk : List String) :
    ∀ (vs : List Vec) (ps : List ℕ) (res : List (Option Vec)) (c : Cache)
      (res' : List (Option Vec)) (c' : Cache),
      placeLoop mdl chunk vs ps res c = (.ok res', c') →
      ∀ q : ℕ, q ∉ ps.take vs.length → res'[q]? = res[q]? := by
  intro vs
  induction vs with
  | nil =>
    intro ps res c res' c' h q _
    rw [placeLoop] at h
    cases h
    rfl
  | cons v vs ih =>
    intro ps res c res' c' h q hq
    cases ps with
    | nil => rw [placeLoop] at h; cases h
    | cons p ps =>
      rw [placeLoop] at h
      rw [List.length_cons, List.take_succ_cons, List.mem_cons] at hq
      push_neg at hq
      have := ih ps (res.set p v) _ res' c' h q hq.2
      rw [this, List.getElem?_set_ne hq.1.symm]

theorem unwrapAll_error_of_none :
    ∀ (res : List (Option Vec)) (q : ℕ), res[q]? = some none →
      unwrapAll res = .error .assertionError := by
  intro res
  induction res with
  | nil => intro q h; simp at h
  | cons a rest ih =>
    intro q h
    cases q with
    | zero =>
      simp only [List.getElem?_cons_zero, Option.some.injEq] at h
      rw [h]
      rfl
    | succ q =>
      rw [List.getElem?_cons_succ] at h
      cases a with
      | none => rfl
      | some v =>
        rw [unwrapAll, ih q h]
        rfl

theorem pairwise_lt_not_mem_take {ps : List ℕ} (h : ps.Pairwise (· < ·))
    (k : ℕ) (hk : k < ps.length) : ps[k] ∉ ps.take k := by
  intro hmem
  rw [List.mem_iff_getElem] at hmem
  obtain ⟨i, hi, hig⟩ := hmem
  have hik : i < k := by
    rw [List.length_take] at hi
    omega
  have hlt := List.pairwise_iff_getElem.mp h i k (by omega) hk hik
  rw [List.getElem_take] at hig
  rw [hig] at hlt
  exact lt_irrefl _ hlt

/-- If a chunk has missing texts and the gateway returns a vector count
different from the missing count, the chunk processing raises: an
`IndexError` from `missing_positions[idx]` when too many vectors come back,
or the `assert emb is not None` failure when too few do. -/
theorem processChunk_mismatch (g : List String → List Vec) (mdl : String)
    (chunk : List String) (st : EmbState)
    (hmiss : (scanChunk mdl st.cache chunk).2.1 ≠ [])
    (hlen : (g (scanChunk mdl st.cache chunk).2.1).length ≠
      (scanChunk mdl st.cache chunk).2.1.length) :
    ∃ e, (processChunk g mdl chunk st).1 = .error e := by
  rw [processChunk]
  have hie : ¬ ((scanChunk mdl st.cache chunk).2.1.isEmpty = true) := by
    simpa [List.isEmpty_iff] using hmiss
  rw [if_neg hie]
  simp only []
  have hpm := scanChunk_pos_length mdl st.cache chunk
  rcases Nat.lt_trichotomy (g (scanChunk mdl st.cache chunk).2.1).length
      (scanChunk mdl st.cache chunk).2.2.length with hlt | heq | hgt
  · -- too few vectors: some missing position is never written, assert fires
    cases hpl : placeLoop mdl chunk (g (scanChunk mdl st.cache chunk).2.1)
        (scanChunk mdl st.cache chunk).2.2 (scanChunk mdl st.cache chunk).1
        st.cache with
    | mk r1 c1 =>
      cases r1 with
      | error e => exact ⟨e, rfl⟩
      | ok res' =>
        have hq : (scanChunk mdl st.cache chunk).2.2[(g (scanChunk mdl st.cache chunk).2.1).length] ∈
            (scanChunk mdl st.cache chunk).2.2 := List.getElem_mem hlt
        have hnone := scanChunk_res_none mdl st.cache chunk _ hq
        have hnotin := pairwise_lt_not_mem_take
          (scanChunk_pos_pairwise mdl st.cache chunk)
          (g (scanChunk mdl st.cache chunk).2.1).length hlt
        have huntouched := placeLoop_ok_untouched mdl chunk _ _ _ _ _ _ hpl
          ((scanChunk mdl st.cache chunk).2.2[(g (scanChunk mdl st.cache chunk).2.1).length])
          hnotin
        rw [hnone] at huntouched
        exact ⟨.assertionError, unwrapAll_error_of_none res' _ huntouched⟩
  · exact absurd (heq.trans hpm) hlen
  · -- too many vectors: missing_positions[idx] raises IndexError
    have h1 := placeLoop_too_long mdl chunk (g (scanChunk mdl st.cache chunk).2.1)
      (scanChunk mdl st.cache chunk).2.2 (scanChunk mdl st.cache chunk).1
      st.cache hgt
    cases hpl : placeLoop mdl chunk (g (scanChunk mdl st.cache chunk).2.1)
        (scanChunk mdl st.cache chunk).2.2 (scanChunk mdl st.cache chunk).1
        st.cache with
    | mk r1 c1 =>
      rw [hpl] at h1
      simp only at h1
      subst h1
      exact ⟨.indexError, rfl⟩

theorem processChunk_ok_calls (g : List String → List Vec) (mdl : String)
    (chunk : List String) (st : EmbState) (vs : List Vec) (st' : EmbState)
    (h : processChunk g mdl chunk st = (.ok vs, st')) :
    ∃ new, st'.batchCalls = st.batchCalls ++ new ∧
      ∀ ts ∈ new, (g ts).length = ts.length := by
  by_cases hmiss : (scanChunk mdl st.cache chunk).2.1 = []
  · rw [processChunk, if_pos (by simpa [List.isEmpty_iff] using hmiss)] at h
    injection h with h1 h2
    subst h2
    exact ⟨[], by simp, by simp⟩
  · by_cases hlen : (g (scanChunk mdl st.cache chunk).2.1).length =
        (scanChunk mdl st.cache chunk).2.1.length
    · rw [processChunk, if_neg (by simpa [List.isEmpty_iff] using hmiss)] at h
      simp only [] at h
      cases hpl : placeLoop mdl chunk (g (scanChunk mdl st.cache chunk).2.1)
          (scanChunk mdl st.cache chunk).2.2 (scanChunk mdl st.cache chunk).1
          st.cache with
      | mk r1 c1 =>
        rw [hpl] at h
        cases r1 with
        | error e => simp at h
        | ok res' =>
          injection h with h1 h2
          subst h2
          refine ⟨[(scanChunk mdl st.cache chunk).2.1], by simp, ?_⟩
          intro ts hts
          rw [List.mem_singleton] at hts
          subst hts
          exact hlen
    · obtain ⟨e, he⟩ := processChunk_mismatch g mdl chunk st hmiss hlen
      rw [h] at he
      simp at he

theorem processChunks_ok_calls (g : List String → List Vec) (mdl : String) (m : ℕ) :
    ∀ (n : ℕ) (texts : List String), texts.length ≤ n →
      ∀ (st : EmbState) (vs : List Vec) (st' : EmbState),
        processChunks g mdl m texts st = (.ok vs, st') →
        ∃ new, st'.batchCalls = st.batchCalls ++ new ∧
          ∀ ts ∈ new, (g ts).length = ts.length := by
  intro n
  induction n with
  | zero =>
    intro texts hl st vs st' h
    have htn : texts = [] := List.length_eq_zero.mp (Nat.le_zero.mp hl)
    subst htn
    rw [processChunks] at h
    by_cases hm : m = 0
    · simp [hm] at h
    · rw [dif_neg hm, dif_pos (by simp)] at h
      injection h with h1 h2
      subst h2
      exact ⟨[], by simp, by simp⟩
  | succ n ih =>
    intro texts hl st vs st' h
    rw [processChunks] at h
    by_cases hm : m = 0
    · simp [hm] at h
    · rw [dif_neg hm] at h
      by_cases ht : texts.isEmpty
      · rw [dif_pos ht] at h
        injection h with h1 h2
        subst h2
        exact ⟨[], by simp, by simp⟩
      · rw [dif_neg ht] at h
        cases hc : processChunk g mdl (texts.take m) st with
        | mk r1 st1 =>
          rw [hc] at h
          cases r1 with
          | error e => simp at h
          | ok vs1 =>
            simp only [] at h
            cases hrec : processChunks g mdl m (texts.drop m) st1 with
            | mk r2 st2 =>
              rw [hrec] at h
              cases r2 with
              | error e => simp at h
              | ok rest =>
                injection h with h1 h2
                subst h2
                obtain ⟨new1, hb1, hok1⟩ :=
                  processChunk_ok_calls g mdl (texts.take m) st vs1 st1 hc
                have hdlen : (texts.drop m).length ≤ n := by
                  rw [List.length_drop]
                  have hne : texts.length ≠ 0 := by
                    simpa [List.isEmpty_iff_length_eq_zero] using ht
                  have hm1 : 1 ≤ m := Nat.one_le_iff_ne_zero.mpr hm
                  omega
                obtain ⟨new2, hb2, hok2⟩ := ih (texts.drop m) hdlen st1 rest st2 hrec
                refine ⟨new1 ++ new2, by rw [hb2, hb1, List.append_assoc], ?_⟩
                intro ts hts
                rcases List.mem_append.mp hts with hmem | hmem
                · exact hok1 ts hmem
                · exact hok2 ts hmem

/-- C5: a successful batch run implies that every gateway batch call made
during the run returned exactly as many vectors as the missing texts it was
given — equivalently, any count mismatch makes `generate_embeddings_batch`
fail (too many vectors hit `missing_positions[idx]` → `IndexError`; too few
leave a placeholder unfilled → the `assert emb is not None` fires).  The
batch operation never silently pads or truncates. -/
theorem c5_batch_count_mismatch_errors (g : List String → List Vec)
    (cm : String) (texts : List String) (model : Option String) (m : ℕ)
    (st : EmbState) (resp : BatchEmbeddingResponseM) (st' : EmbState)
    (h : generate_embeddings_batch g cm texts model m st = (.ok resp, st')) :
    ∃ new, st'.batchCalls = st.batchCalls ++ new ∧
      ∀ ts ∈ new, (g ts).length = ts.length := by
  rw [generate_embeddings_batch] at h
  by_cases h1 : texts.isEmpty
  · simp [h1] at h
  · rw [if_neg h1] at h
    by_cases h2 : texts.any pyBlank
    · rw [if_pos h2] at h
      simp at h
    · rw [if_neg h2] at h
      cases hp : processChunks g (model.getD cm) m texts st with
      | mk r1 st1 =>
        rw [hp] at h
        cases r1 with
        | error e => simp at h
        | ok all =>
          injection h with h3 h4
          subst h4
          exact processChunks_ok_calls g (model.getD cm) m texts.length texts
            le_rfl st all st1 hp

theorem c5_batch_count_mismatch_errors_witness :
    ∃ new, (⟨[(("m", "a"), [])], 0, [["a"]]⟩ : EmbState).batchCalls =
        (⟨[], 0, []⟩ : EmbState).batchCalls ++ new ∧
      ∀ ts ∈ new, ((fun l : List String => l.map (fun _ => ([] : Vec))) ts).length =
        ts.length :=
  c5_batch_count_mismatch_errors (fun l : List String => l.map (fun _ => ([] : Vec)))
    "m" ["a"]
    none 1 ⟨[], 0, []⟩ ⟨[[]], "m", 0, 1⟩ ⟨[(("m", "a"), [])], 0, [["a"]]⟩
    (by simp [generate_embeddings_batch, processChunks, processChunk, scanChunk,
      cacheGet, placeLoop, cacheInsert, unwrapAll, pyBlank, Except.map])

/-! ### All-cache-miss batch run (claim C8) -/

theorem cacheGet_insert_self (c : Cache) (k : String × String) (v : Vec) :
    cacheGet (cacheInsert c k v) k = some v := by
  simp [cacheGet, cacheInsert, List.find?]

theorem cacheGet_insert_ne (c : Cache) (k k' : String × String) (v : Vec)
    (h : k' ≠ k) : cacheGet (cacheInsert c k v) k' = cacheGet c k' := by
  simp only [cacheGet, cacheInsert, List.find?]
  have : (k == k') = false := by
    rw [beq_eq_false_iff_ne]
    exact fun hk => h hk.symm
  rw [this]

/-- The cache produced by writing back one gateway vector per chunk text, in
chunk order. -/
def insertsOf (mdl : String) (f : String → Vec) (chunk : List String)
    (c : Cache) : Cache :=
  chunk.foldl (fun acc t => cacheInsert acc (mdl, t) (f t)) c

theorem insertsOf_get_notmem (mdl : String) (f : String → Vec) :
    ∀ (chunk : List String) (c : Cache) (t' : String), t' ∉ chunk →
      cacheGet (insertsOf mdl f chunk c) (mdl, t') = cacheGet c (mdl, t') := by
  intro chunk
  induction chunk with
  | nil => intro c t' _; rfl
  | cons t ts ih =>
    intro c t' ht'
    rw [List.mem_cons] at ht'
    push_neg at ht'
    show cacheGet (insertsOf mdl f ts (cacheInsert c (mdl, t) (f t))) (mdl, t') = _
    rw [ih _ t' ht'.2, cacheGet_insert_ne]
    intro hk
    exact ht'.1 (congrArg Prod.snd hk)

theorem scanChunk_all_miss (mdl : String) (c : Cache) :
    ∀ ts : List String, (∀ t ∈ ts, cacheGet c (mdl, t) = none) →
      scanChunk mdl c ts =
        (ts.map (fun _ => (none : Option Vec)), ts, List.range ts.length) := by
  intro ts
  induction ts with
  | nil => intro _; rfl
  | cons t ts ih =>
    intro hmiss
    rw [scanChunk, hmiss t (List.mem_cons_self t ts),
      ih (fun x hx => hmiss x (List.mem_cons_of_mem t hx))]
    simp [List.range_succ_eq_map]

theorem placeLoop_shift (mdl t : String) (chunk : List String) (x : Option Vec) :
    ∀ (vs : List Vec) (ps : List ℕ) (res : List (Option Vec)) (c : Cache),
      placeLoop mdl (t :: chunk) vs (ps.map (· + 1)) (x :: res) c =
        ((placeLoop mdl chunk vs ps res c).1.map (fun l => x :: l),
          (placeLoop mdl chunk vs ps res c).2) := by
  intro vs
  induction vs with
  | nil => intro ps res c; simp [placeLoop, Except.map]
  | cons v vs ih =>
    intro ps res c
    cases ps with
    | nil => simp [placeLoop, Except.map]
    | cons p ps =>
      rw [List.map_cons, placeLoop, placeLoop]
      rw [show ((x :: res).set (p + 1) (some v)) = x :: res.set p (some v) from rfl]
      rw [show (t :: chunk).getD (p + 1) "" = chunk.getD p "" from rfl]
      exact ih ps (res.set p (some v)) (cacheInsert c (mdl, chunk.getD p "") v)

theorem placeLoop_fill (mdl : String) (f : String → Vec) :
    ∀ (chunk : List String) (c : Cache),
      placeLoop mdl chunk (chunk.map f) (List.range chunk.length)
          (chunk.map (fun _ => (none : Option Vec))) c =
        (.ok (chunk.map (fun t => some (f t))), insertsOf mdl f chunk c) := by
  intro chunk
  induction chunk with
  | nil => intro c; rfl
  | cons t ts ih =>
    intro c
    rw [List.length_cons, List.range_succ_eq_map, List.map_cons, List.map_cons,
      placeLoop]
    rw [show ((none :: ts.map (fun _ => (none : Option Vec))).set 0 (some (f t))) =
      some (f t) :: ts.map (fun _ => (none : Option Vec)) from rfl]
    rw [show (t :: ts).getD 0 "" = t from rfl]
    rw [placeLoop_shift, ih (cacheInsert c (mdl, t) (f t))]
    rfl

theorem unwrapAll_map_some (f : String → Vec) :
    ∀ l : List String, unwrapAll (l.map (fun t => some (f t))) = .ok (l.map f) := by
  intro l
  induction l with
  | nil => rfl
  | cons t ts ih => rw [List.map_cons, unwrapAll, ih]; rfl

theorem processChunk_all_miss (f : String → Vec) (mdl : String)
    (chunk : List String) (st : EmbState) (hne : chunk ≠ [])
    (hmiss : ∀ t ∈ chunk, cacheGet st.cache (mdl, t) = none) :
    processChunk (fun ts => ts.map f) mdl chunk st =
      (.ok (chunk.map f),
        { cache := insertsOf mdl f chunk st.cache,
          singleCalls := st.singleCalls,
          batchCalls := st.batchCalls ++ [chunk] }) := by
  rw [processChunk, scanChunk_all_miss mdl st.cache chunk hmiss]
  simp only []
  rw [if_neg (by simpa [List.isEmpty_iff] using hne)]
  rw [placeLoop_fill mdl f chunk st.cache]
  simp only []
  rw [unwrapAll_map_some]

theorem processChunks_all_miss (f : String → Vec) (mdl : String) (m : ℕ)
    (hm : m ≠ 0) :
    ∀ (n : ℕ) (texts : List String), texts.length ≤ n → texts.Nodup →
      ∀ st : EmbState, (∀ t ∈ texts, cacheGet st.cache (mdl, t) = none) →
      ∃ (c' : Cache) (new : List (List String)),
        processChunks (fun ts => ts.map f) mdl m texts st =
          (.ok (texts.map f),
            { cache := c', singleCalls := st.singleCalls,
              batchCalls := st.batchCalls ++ new }) ∧
        new.length = (texts.length + m - 1) / m ∧
        (∀ t' : String, t' ∉ texts →
          cacheGet c' (mdl, t') = cacheGet st.cache (mdl, t')) := by
  intro n
  induction n with
  | zero =>
    intro texts hl _ st _
    have hte : texts = [] := List.length_eq_zero.mp (Nat.le_zero.mp hl)
    subst hte
    refine ⟨st.cache, [], ?_, ?_, fun t' _ => rfl⟩
    · rw [processChunks, dif_neg hm, dif_pos (by simp)]
      simp
    · rw [Nat.div_eq_of_lt (by omega)]
      rfl
  | succ n ih =>
    intro texts hl hnd st hmiss
    by_cases hte : texts = []
    · subst hte
      refine ⟨st.cache, [], ?_, ?_, fun t' _ => rfl⟩
      · rw [processChunks, dif_neg hm, dif_pos (by simp)]
        simp
      · simp only [List.length_nil, Nat.zero_add]
        rw [Nat.div_eq_of_lt (by omega)]
    · have hm1 : 1 ≤ m := Nat.one_le_iff_ne_zero.mpr hm
      have hL : texts.length ≠ 0 := fun h0 => hte (List.length_eq_zero.mp h0)
      have htake_ne : texts.take m ≠ [] := by
        rw [Ne, List.take_eq_nil_iff]
        push_neg
        exact ⟨hm, hte⟩
      have hsplit := List.take_append_drop m texts
      have hnd' : (texts.take m ++ texts.drop m).Nodup := by rwa [hsplit]
      obtain ⟨hndtake, hnddrop, hdisj⟩ := List.nodup_append.mp hnd'
      have hchunk := processChunk_all_miss f mdl (texts.take m) st htake_ne
        (fun t ht => hmiss t (List.take_subset m texts ht))
      have hmiss1 : ∀ t ∈ texts.drop m,
          cacheGet (insertsOf mdl f (texts.take m) st.cache) (mdl, t) = none := by
        intro t ht
        have htn : t ∉ texts.take m := fun hc => hdisj hc ht
        rw [insertsOf_get_notmem mdl f _ _ t htn]
        exact hmiss t (List.drop_subset m texts ht)
      have hdl : (texts.drop m).length ≤ n := by
        rw [List.length_drop]
        omega
      obtain ⟨c'', new', hrec, hcount, hpres⟩ :=
        ih (texts.drop m) hdl hnddrop
          { cache := insertsOf mdl f (texts.take m) st.cache,
            singleCalls := st.singleCalls,
            batchCalls := st.batchCalls ++ [texts.take m] } hmiss1
      refine ⟨c'', texts.take m :: new', ?_, ?_, ?_⟩
      · rw [processChunks, dif_neg hm,
          dif_neg (by simpa [List.isEmpty_iff] using hte), hchunk]
        simp only []
        rw [hrec]
        simp only []
        rw [← List.map_append, hsplit, List.append_assoc]
        rfl
      · rw [List.length_cons, hcount, List.length_drop]
        rcases le_or_lt m texts.length with hml | hml
        · have e1 : texts.length - m + m - 1 = texts.length - 1 := by omega
          have e2 : texts.length + m - 1 = (texts.length - 1) + m := by omega
          rw [e1, e2, Nat.add_div_right _ (by omega)]
        · have e1 : texts.length - m = 0 := by omega
          have e2 : texts.length + m - 1 = (texts.length - 1) + m := by omega
          rw [e1, Nat.div_eq_of_lt (by omega), e2,
            Nat.add_div_right _ (by omega), Nat.div_eq_of_lt (by omega)]
      · intro t' ht'
        rw [hpres t' (fun hc => ht' (List.drop_subset m texts hc)),
          insertsOf_get_notmem mdl f _ _ t'
            (fun hc => ht' (List.take_subset m texts hc))]

/-- C8: for `n` pairwise-distinct non-blank texts none of which is cached,
with a per-text gateway `f` and any `maxBatchSize = m ≥ 1`, the batch
operation succeeds, returns the `n` vectors in input order (`texts.map f`),
and issues exactly `⌈n / m⌉ = (n + m - 1) / m` gateway batch calls. -/
theorem c8_batch_chunking (f : String → Vec) (cm : String) (texts : List String)
    (model : Option String) (m : ℕ) (st : EmbState)
    (hne : texts ≠ []) (hblank : ∀ t ∈ texts, pyBlank t = false)
    (hnd : texts.Nodup)
    (hmiss : ∀ t ∈ texts, cacheGet st.cache (model.getD cm, t) = none)
    (hm : m ≠ 0) :
    ∃ resp st',
      generate_embeddings_batch (fun ts => ts.map f) cm texts model m st =
        (.ok resp, st') ∧
      resp.embeddings = texts.map f ∧
      resp.count = texts.length ∧
      st'.batchCalls.length = st.batchCalls.length + (texts.length + m - 1) / m := by
  obtain ⟨c', new, hproc, hcount, _⟩ :=
    processChunks_all_miss f (model.getD cm) m hm texts.length texts le_rfl hnd
      st hmiss
  have h2 : texts.any pyBlank = false :=
    List.any_eq_false.mpr (fun x hx => by rw [hblank x hx]; exact Bool.false_ne_true)
  have hgen : generate_embeddings_batch (fun ts => ts.map f) cm texts model m st =
      (.ok { embeddings := texts.map f, model := model.getD cm,
             dimensions := ((texts.map f).headD []).length,
             count := (texts.map f).length },
        { cache := c', singleCalls := st.singleCalls,
          batchCalls := st.batchCalls ++ new }) := by
    rw [generate_embeddings_batch,
      if_neg (by simpa [List.isEmpty_iff] using hne),
      if_neg (by simp [h2]), hproc]
  refine ⟨_, _, hgen, rfl, by simp, ?_⟩
  simp only [List.length_append]
  rw [hcount]

theorem c8_batch_chunking_witness :
    ∃ resp st',
      generate_embeddings_batch
          (fun ts => ts.map (fun _ => ([] : Vec))) "m" ["a", "b", "c"] none 2
          ⟨[], 0, []⟩ =
        (.ok resp, st') ∧
      resp.embeddings = (["a", "b", "c"] : List String).map (fun _ => ([] : Vec)) ∧
      resp.count = (["a", "b", "c"] : List String).length ∧
      st'.batchCalls.length = (⟨[], 0, []⟩ : EmbState).batchCalls.length +
        ((["a", "b", "c"] : List String).length + 2 - 1) / 2 :=
  c8_batch_chunking (fun _ => []) "m" ["a", "b", "c"] none 2 ⟨[], 0, []⟩
    (by decide) (by decide) (by decide) (by decide) (by decide)

end Matchmaking
